import Mathlib

/-!
# Verification of `stream_player.js` (unity-cache-server stream player)

Shallow embedding of the stream-player script:

* `JSNum` models JavaScript numbers as used here (integer-valued timestamps,
  byte counts and their sums/differences, plus `NaN` which arises from
  arithmetic on `undefined` variables; `undefined` itself is modelled as
  `Option Int` for the never-assigned timestamp variables).
* `Stats` is the record shape produced by `playStream` and folded by `run`
  (`{bytesSent, bytesReceived, sendTime, receiveTime}`).
* `splitBatches` is the scheduler loop `while(jobs.length > 0) { const next =
  jobs.splice(0, options.numConcurrent); await Promise.all(next.map(t => t())) }`.
* `batchResults` / `runSched` model the scheduling over per-job outcomes,
  `runNet` additionally records the network side effects of `run`
  (null-server start/stop, per-session connections).
* `PlayState` / `step` model the per-session event handlers of `playStream`:
  the file stream's `open`/`close` handlers, the `ServerStreamProcessor`'s
  `header`/`data`/`dataEnd` handlers, the idle timer (`setTimer` /
  `clearTimeout`), and the socket `close` handler that resolves the result.
-/

/-- JavaScript numbers as needed by this program: an integer value or `NaN`
(produced e.g. by `undefined - undefined`).  `NaN` is absorbing for `+`/`-`. -/
inductive JSNum where
  | num (v : Int)
  | nan
  deriving DecidableEq, Repr

namespace JSNum

/-- JS `+` on numbers: `NaN` propagates. -/
def add : JSNum → JSNum → JSNum
  | num a, num b => num (a + b)
  | _, _ => nan

instance : Add JSNum := ⟨add⟩
instance : Zero JSNum := ⟨num 0⟩

theorem add_def (a b : JSNum) : a + b = a.add b := rfl

theorem add_comm' (a b : JSNum) : a + b = b + a := by
  cases a <;> cases b <;> simp [add_def, add] <;> omega

theorem add_assoc' (a b c : JSNum) : a + b + c = a + (b + c) := by
  cases a <;> cases b <;> cases c <;> simp [add_def, add] <;> omega

theorem zero_add' (a : JSNum) : 0 + a = a := by
  cases a <;> simp [add_def, add] <;> rfl

theorem add_zero' (a : JSNum) : a + 0 = a := by
  cases a <;> simp [add_def, add] <;> rfl

instance : AddCommMonoid JSNum where
  add_assoc := add_assoc'
  zero_add := zero_add'
  add_zero := add_zero'
  add_comm := add_comm'
  nsmul := nsmulRec

/-- `NaN` absorbs on the left of `+`. -/
theorem nan_add (a : JSNum) : nan + a = nan := by cases a <;> rfl

/-- `NaN` absorbs on the right of `+`. -/
theorem add_nan (a : JSNum) : a + nan = nan := by cases a <;> rfl

end JSNum

/-- JS subtraction of two possibly-`undefined` timestamps
(`undefined - x`, `x - undefined` and `undefined - undefined` are `NaN`). -/
def jsSub : Option Int → Option Int → JSNum
  | some a, some b => .num (a - b)
  | _, _ => .nan

/-- The record produced per iteration by `playStream` and folded by `run`:
`{bytesSent, bytesReceived, sendTime, receiveTime}`. -/
structure Stats where
  bytesSent : JSNum
  bytesReceived : JSNum
  sendTime : JSNum
  receiveTime : JSNum
  deriving DecidableEq, Repr

/-- The initial accumulator of `run`'s `results.reduce(...)`:
`{receiveTime: 0, bytesReceived: 0, sendTime: 0, bytesSent: 0}`. -/
def zeroStats : Stats :=
  { bytesSent := 0, bytesReceived := 0, sendTime := 0, receiveTime := 0 }

/-- One step of `run`'s reducer: `(prev, cur) => { cur.bytesSent +=
prev.bytesSent; ...; return cur }`. -/
def reduceStep (prev cur : Stats) : Stats :=
  { bytesSent := cur.bytesSent + prev.bytesSent
    bytesReceived := cur.bytesReceived + prev.bytesReceived
    sendTime := cur.sendTime + prev.sendTime
    receiveTime := cur.receiveTime + prev.receiveTime }

/-- `results.reduce(reduceStep, zeroStats)` from `run`. -/
def foldStats (results : List Stats) : Stats :=
  results.foldl reduceStep zeroStats

/-- Elementwise sum of a list of `Stats` records (the specification-side
fold: four independent field sums). -/
def sumStats (results : List Stats) : Stats :=
  { bytesSent := (results.map Stats.bytesSent).sum
    bytesReceived := (results.map Stats.bytesReceived).sum
    sendTime := (results.map Stats.sendTime).sum
    receiveTime := (results.map Stats.receiveTime).sum }

namespace Stats

/-- Fieldwise addition of stats records. -/
def add (a b : Stats) : Stats :=
  { bytesSent := a.bytesSent + b.bytesSent
    bytesReceived := a.bytesReceived + b.bytesReceived
    sendTime := a.sendTime + b.sendTime
    receiveTime := a.receiveTime + b.receiveTime }

instance : Add Stats := ⟨add⟩
instance : Zero Stats := ⟨zeroStats⟩

theorem stats_add_def (a b : Stats) : a + b = a.add b := rfl

theorem ext' (a b : Stats) (h1 : a.bytesSent = b.bytesSent)
    (h2 : a.bytesReceived = b.bytesReceived) (h3 : a.sendTime = b.sendTime)
    (h4 : a.receiveTime = b.receiveTime) : a = b := by
  cases a; cases b; simp_all

theorem stats_add_comm (a b : Stats) : a + b = b + a := by
  apply ext' <;> simp [stats_add_def, add] <;> apply JSNum.add_comm'

theorem stats_add_assoc (a b c : Stats) : a + b + c = a + (b + c) := by
  apply ext' <;> simp [stats_add_def, add] <;> apply JSNum.add_assoc'

theorem stats_zero_add (a : Stats) : 0 + a = a := by
  apply ext' <;> simp [stats_add_def, add, zeroStats] <;>
    first
      | apply JSNum.zero_add'
      | rfl

theorem stats_add_zero (a : Stats) : a + 0 = a := by
  apply ext' <;> simp [stats_add_def, add, zeroStats] <;>
    first
      | apply JSNum.add_zero'
      | rfl

instance : AddCommMonoid Stats where
  add_assoc := stats_add_assoc
  zero_add := stats_zero_add
  add_zero := stats_add_zero
  add_comm := stats_add_comm
  nsmul := nsmulRec

end Stats

theorem reduceStep_eq (prev cur : Stats) : reduceStep prev cur = cur + prev := rfl

theorem sumStats_nil : sumStats [] = zeroStats := rfl

theorem sumStats_cons (r : Stats) (l : List Stats) :
    sumStats (r :: l) = r + sumStats l := by
  apply Stats.ext' <;> simp [sumStats, Stats.stats_add_def, Stats.add]

/-- `foldl` of the mutating reducer, started from any accumulator, computes
the elementwise sum plus the accumulator. -/
theorem foldl_reduceStep (l : List Stats) :
    ∀ a : Stats, l.foldl reduceStep a = sumStats l + a := by
  induction l with
  | nil => intro a; simp [sumStats_nil]; exact (Stats.stats_zero_add a).symm
  | cons x xs ih =>
    intro a
    rw [List.foldl_cons, ih, reduceStep_eq, sumStats_cons]
    rw [← Stats.stats_add_assoc, Stats.stats_add_comm (sumStats xs) x, Stats.stats_add_assoc]

/-- The `results.reduce` in `run` computes the elementwise sum of all
per-iteration results. -/
theorem foldStats_eq_sumStats (l : List Stats) : foldStats l = sumStats l := by
  rw [foldStats, foldl_reduceStep]
  exact Stats.stats_add_zero (sumStats l)

/-- The fold is order-independent: permuting the completion order of the
results does not change the aggregate. -/
theorem foldStats_perm {l l' : List Stats} (h : l.Perm l') :
    foldStats l = foldStats l' := by
  rw [foldStats_eq_sumStats, foldStats_eq_sumStats]
  apply Stats.ext' <;> simp [sumStats] <;>
    exact List.Perm.sum_eq (h.map _)

/-! ## The batching loop of `run`

`while(jobs.length > 0) { const next = jobs.splice(0, options.numConcurrent);
await Promise.all(next.map(t => t())); }`
-/

/-- The batching loop of `run`: `jobs.splice(0, k)` removes the first
`min k length` jobs, so the job list is cut into consecutive batches of `k`
jobs, the last batch possibly smaller.  (With `k = 0` the JS loop would never
terminate; all claims restrict to `k ≥ 1`.) -/
def splitBatches {α : Type} (k : Nat) : List α → List (List α)
  | [] => []
  | x :: xs => (x :: xs.take (k - 1)) :: splitBatches k (xs.drop (k - 1))
termination_by l => l.length
decreasing_by
  simp only [List.length_drop, List.length_cons]
  omega

theorem splitBatches_nil {α : Type} (k : Nat) :
    splitBatches k ([] : List α) = [] := by
  rw [splitBatches]

theorem splitBatches_cons {α : Type} (k : Nat) (x : α) (xs : List α) :
    splitBatches k (x :: xs) =
      (x :: xs.take (k - 1)) :: splitBatches k (xs.drop (k - 1)) := by
  rw [splitBatches]

theorem splitBatches_eq_nil_iff {α : Type} (k : Nat) (l : List α) :
    splitBatches k l = [] ↔ l = [] := by
  cases l with
  | nil => simp [splitBatches_nil]
  | cons x xs => simp [splitBatches_cons]

/-- The batches partition the job list: concatenating them in order gives
back the original job list. -/
theorem splitBatches_join {α : Type} (k : Nat) (l : List α) :
    (splitBatches k l).join = l := by
  obtain ⟨n, hn⟩ : ∃ n, l.length ≤ n := ⟨l.length, le_rfl⟩
  induction n generalizing l with
  | zero =>
    rw [List.length_eq_zero.mp (Nat.le_zero.mp hn), splitBatches_nil]
    rfl
  | succ n ih =>
    cases l with
    | nil => rw [splitBatches_nil]; rfl
    | cons x xs =>
      rw [splitBatches_cons]
      have ih' := ih (xs.drop (k - 1)) (by simp at hn ⊢; omega)
      simp [ih', List.take_append_drop]

/-- Every batch holds at most `k` jobs. -/
theorem splitBatches_length_le {α : Type} (k : Nat) (hk : 1 ≤ k) (l : List α) :
    ∀ b ∈ splitBatches k l, b.length ≤ k := by
  obtain ⟨n, hn⟩ : ∃ n, l.length ≤ n := ⟨l.length, le_rfl⟩
  induction n generalizing l with
  | zero =>
    rw [List.length_eq_zero.mp (Nat.le_zero.mp hn), splitBatches_nil]
    simp
  | succ n ih =>
    cases l with
    | nil => rw [splitBatches_nil]; simp
    | cons x xs =>
      rw [splitBatches_cons]
      intro b hb
      rcases List.mem_cons.mp hb with h | h
      · subst h; simp [List.length_take]; omega
      · exact ih (xs.drop (k - 1)) (by simp at hn ⊢; omega) b h

/-- Every batch except possibly the last holds exactly `k` jobs
(the batches are consecutive blocks of size `k`). -/
theorem splitBatches_full {α : Type} (k : Nat) (hk : 1 ≤ k) (l : List α) :
    ∀ i, i + 1 < (splitBatches k l).length →
      ((splitBatches k l).getD i []).length = k := by
  obtain ⟨n, hn⟩ : ∃ n, l.length ≤ n := ⟨l.length, le_rfl⟩
  induction n generalizing l with
  | zero =>
    rw [List.length_eq_zero.mp (Nat.le_zero.mp hn), splitBatches_nil]
    simp
  | succ n ih =>
    cases l with
    | nil => rw [splitBatches_nil]; simp
    | cons x xs =>
      rw [splitBatches_cons]
      intro i hi
      cases i with
      | zero =>
        simp only [List.length_cons] at hi
        have hne : splitBatches k (xs.drop (k - 1)) ≠ [] := by
          intro hcon; rw [hcon] at hi; simp at hi
        have hxs : xs.drop (k - 1) ≠ [] := by
          intro hcon
          exact hne (by rw [hcon, splitBatches_nil])
        have hlen : k - 1 < xs.length := by
          by_contra hcon
          exact hxs (List.drop_eq_nil_of_le (by omega))
        simp [List.length_take]
        omega
      | succ j =>
        simp only [List.length_cons] at hi
        exact ih (xs.drop (k - 1)) (by simp at hn ⊢; omega) j (by omega)

/-! ## Scheduler execution traces

`Promise.all(next.map(t => t()))` starts every job of a batch synchronously
and then suspends until all of them have settled; only then does the loop
take the next batch.  A trace records session starts and settlements; the
settle order within a batch is arbitrary. -/

/-- Scheduler trace events: session `i` starts / settles. -/
inductive SchedEv where
  | start (i : Nat)
  | settle (i : Nat)
  deriving DecidableEq, Repr

/-- Contribution of one event to the number of in-flight sessions. -/
def evDelta : SchedEv → Int
  | .start _ => 1
  | .settle _ => -1

/-- Number of sessions in flight after the events of `t`. -/
def inFlight (t : List SchedEv) : Int := (t.map evDelta).sum

/-- Whether an event is a session start. -/
def isStart : SchedEv → Bool
  | .start _ => true
  | .settle _ => false

/-- Number of sessions started during `t`. -/
def countStarts (t : List SchedEv) : Nat := t.countP isStart

/-- Trace of one batch `b`: all of its jobs start (in list order, as
`next.map(t => t())` invokes them), then all of them settle, in an arbitrary
order `e`. -/
def batchTrace (b e : List Nat) : List SchedEv :=
  b.map SchedEv.start ++ e.map SchedEv.settle

/-- Trace of the whole batching loop for batches `bs` with per-batch settle
orders `es`: batch `n+1` begins only after every job of batch `n` settled
(`await Promise.all`). -/
def runTrace (bs es : List (List Nat)) : List SchedEv :=
  (List.zipWith batchTrace bs es).join

theorem inFlight_nil : inFlight [] = 0 := rfl

theorem inFlight_append (xs ys : List SchedEv) :
    inFlight (xs ++ ys) = inFlight xs + inFlight ys := by
  simp [inFlight]

theorem inFlight_starts_take (b : List Nat) (m : Nat) :
    inFlight ((b.map SchedEv.start).take m) = ((min m b.length : Nat) : Int) := by
  rw [inFlight, ← List.map_take, List.map_map]
  have h : (evDelta ∘ SchedEv.start) = fun _ => (1 : Int) := rfl
  rw [h, List.map_const', List.sum_replicate, nsmul_eq_mul, mul_one]
  simp [List.length_take]

theorem inFlight_settles_take (e : List Nat) (m : Nat) :
    inFlight ((e.map SchedEv.settle).take m) =
      -((min m e.length : Nat) : Int) := by
  rw [inFlight, ← List.map_take, List.map_map]
  have h : (evDelta ∘ SchedEv.settle) = fun _ => (-1 : Int) := rfl
  rw [h, List.map_const', List.sum_replicate, nsmul_eq_mul, mul_neg_one]
  simp [List.length_take]

/-- Within one batch the in-flight count never drops below `0` nor exceeds
the batch size. -/
theorem inFlight_batchTrace_take (b e : List Nat) (he : e.length = b.length)
    (m : Nat) :
    0 ≤ inFlight ((batchTrace b e).take m) ∧
      inFlight ((batchTrace b e).take m) ≤ b.length := by
  rw [batchTrace, List.take_append_eq_append_take, inFlight_append,
    inFlight_starts_take, inFlight_settles_take]
  simp only [List.length_map]
  omega

/-- A complete batch leaves `0` sessions in flight. -/
theorem inFlight_batchTrace (b e : List Nat) (he : e.length = b.length) :
    inFlight (batchTrace b e) = 0 := by
  have h := inFlight_starts_take b b.length
  rw [List.take_of_length_le (by simp)] at h
  have h2 := inFlight_settles_take e e.length
  rw [List.take_of_length_le (by simp)] at h2
  rw [batchTrace, inFlight_append, h, h2]
  omega

theorem runTrace_nil : runTrace [] [] = [] := rfl

theorem runTrace_cons (b e : List Nat) (bs es : List (List Nat)) :
    runTrace (b :: bs) (e :: es) = batchTrace b e ++ runTrace bs es := by
  simp [runTrace]

/-- At every instant of the run — i.e. after every prefix of a run trace in
which the settle order of each batch is an arbitrary permutation of the
batch — at most `k` sessions are in flight, provided every batch has at most
`k` jobs. -/
theorem inFlight_runTrace_take_le (k : Nat) (bs es : List (List Nat))
    (h : List.Forall₂ List.Perm es bs) (hk : ∀ b ∈ bs, b.length ≤ k) :
    ∀ m, inFlight ((runTrace bs es).take m) ≤ (k : Int) := by
  induction h with
  | nil => intro m; simp [runTrace_nil, inFlight_nil]
  | @cons e b es bs hperm htail ih =>
    intro m
    rw [runTrace_cons, List.take_append_eq_append_take, inFlight_append]
    have he : e.length = b.length := hperm.length_eq
    by_cases hm : m ≤ (batchTrace b e).length
    · have : m - (batchTrace b e).length = 0 := by omega
      rw [this, List.take_zero, inFlight_nil, add_zero]
      have hb := (inFlight_batchTrace_take b e he m).2
      have hbk : b.length ≤ k := hk b (List.mem_cons_self b bs)
      omega
    · rw [List.take_of_length_le (by omega), inFlight_batchTrace b e he,
        zero_add]
      exact ih (fun b hb => hk b (List.mem_cons_of_mem _ hb)) _

theorem countStarts_append (xs ys : List SchedEv) :
    countStarts (xs ++ ys) = countStarts xs + countStarts ys := by
  simp [countStarts, List.countP_append]

theorem countStarts_batchTrace (b e : List Nat) :
    countStarts (batchTrace b e) = b.length := by
  rw [batchTrace, countStarts_append]
  have h1 : countStarts (b.map SchedEv.start) = b.length := by
    rw [countStarts, List.countP_map]
    simp [isStart, Function.comp]
  have h2 : countStarts (e.map SchedEv.settle) = 0 := by
    rw [countStarts, List.countP_map]
    simp [isStart, Function.comp]
  omega

/-- Exactly one session starts per scheduled job: the number of start events
in a run trace is the total number of jobs across the batches. -/
theorem countStarts_runTrace (bs es : List (List Nat))
    (h : List.Forall₂ List.Perm es bs) :
    countStarts (runTrace bs es) = bs.join.length := by
  induction h with
  | nil => rfl
  | @cons e b es bs hperm htail ih =>
    rw [runTrace_cons, countStarts_append, countStarts_batchTrace, ih]
    simp

/-- C1: for every `totalIterations ≥ 0` and `concurrencyLimit ≥ 1`, `run`
partitions the `totalIterations` jobs into consecutive batches of size
`concurrencyLimit` (the last batch possibly smaller): the batches concatenate
to the full job list, every batch has at most `concurrencyLimit` jobs, and
every batch but the last has exactly `concurrencyLimit` jobs.  For every
execution trace in which each batch's jobs all start before the batch's
settlements (which occur in an arbitrary order) and batch `n+1` begins only
after batch `n` has fully settled, exactly `totalIterations` sessions are
started overall and at no instant (no trace prefix) are more than
`concurrencyLimit` sessions in flight. -/
theorem run_batching_bound (n k : Nat) (hk : 1 ≤ k)
    (bs : List (List Nat)) (hbs : bs = splitBatches k (List.range n)) :
    bs.join = List.range n ∧
    (∀ b ∈ bs, b.length ≤ k) ∧
    (∀ i, i + 1 < bs.length → (bs.getD i []).length = k) ∧
    (∀ es, List.Forall₂ List.Perm es bs →
      countStarts (runTrace bs es) = n ∧
      ∀ m, inFlight ((runTrace bs es).take m) ≤ (k : Int)) := by
  subst hbs
  refine ⟨splitBatches_join k _, splitBatches_length_le k hk _,
    splitBatches_full k hk _, fun es hes => ⟨?_, ?_⟩⟩
  · rw [countStarts_runTrace _ es hes, splitBatches_join k _,
      List.length_range]
  · exact inFlight_runTrace_take_le k _ es hes (splitBatches_length_le k hk _)

/-- Witness for `run_batching_bound` at `totalIterations = 5`,
`concurrencyLimit = 2`. -/
theorem run_batching_bound_witness :
    (splitBatches 2 (List.range 5)).join = List.range 5 ∧
    (∀ b ∈ splitBatches 2 (List.range 5), b.length ≤ 2) ∧
    (∀ i, i + 1 < (splitBatches 2 (List.range 5)).length →
      ((splitBatches 2 (List.range 5)).getD i []).length = 2) ∧
    (∀ es, List.Forall₂ List.Perm es (splitBatches 2 (List.range 5)) →
      countStarts (runTrace (splitBatches 2 (List.range 5)) es) = 5 ∧
      ∀ m, inFlight ((runTrace (splitBatches 2 (List.range 5)) es).take m) ≤
        (2 : Int)) :=
  run_batching_bound 5 2 (by decide) _ rfl

/-! ## The scheduler over per-job outcomes

Each job `i` is `playStream(...)`, which either fulfills with a `Stats`
record (then pushed onto `results`) or rejects with an error.
`await Promise.all(next.map(t => t()))` rejects with the error of a failing
job of the batch without salvaging its siblings' results; the subsequent
code of `run` (further batches, `nullServer.close()`, `results.reduce`) then
never executes.  `Promise.all` rejects with the temporally first rejection;
the model resolves that nondeterminism by batch position. -/

/-- Outcomes of the jobs of one batch under `Promise.all`: the results of
all jobs in batch order if every job fulfills, otherwise the error of a
failing job (resolved as the first by batch position). -/
def batchResults (outcomes : Nat → Except String Stats) :
    List Nat → Except String (List Stats)
  | [] => .ok []
  | i :: is =>
    match outcomes i with
    | .error e => .error e
    | .ok r =>
      match batchResults outcomes is with
      | .error e => .error e
      | .ok rs => .ok (r :: rs)

/-- The batch loop of `run` over outcome batches, also recording which jobs
were started: each batch's jobs are all invoked, then the loop awaits the
batch; on a rejection `run` rejects with that error and invokes nothing
further; on success of all batches the pushed results are folded by
`results.reduce`. -/
def runSched (outcomes : Nat → Except String Stats) :
    List (List Nat) → List Stats → List Nat → Except String Stats × List Nat
  | [], acc, started => (.ok (foldStats acc), started)
  | b :: bs, acc, started =>
    match batchResults outcomes b with
    | .error e => (.error e, started ++ b)
    | .ok rs => runSched outcomes bs (acc ++ rs) (started ++ b)

/-- If every job of a batch fulfills, `Promise.all` yields all results in
batch order. -/
theorem batchResults_ok (outcomes : Nat → Except String Stats) (b : List Nat)
    (h : ∀ i ∈ b, ∃ r, outcomes i = .ok r) :
    ∃ rs, batchResults outcomes b = .ok rs ∧
      rs = b.map fun i => ((outcomes i).toOption).getD zeroStats := by
  induction b with
  | nil => exact ⟨[], rfl, rfl⟩
  | cons i is ih =>
    obtain ⟨r, hr⟩ := h i (List.mem_cons_self i is)
    obtain ⟨rs, hrs, hrs2⟩ := ih fun j hj => h j (List.mem_cons_of_mem _ hj)
    refine ⟨r :: rs, ?_, ?_⟩
    · rw [batchResults, hr, hrs]
    · simp [hrs2, hr, Except.toOption]

/-- If some job of a batch rejects, `Promise.all` rejects with the error of
a failing job of that batch. -/
theorem batchResults_error (outcomes : Nat → Except String Stats)
    (b : List Nat) (h : ∃ i ∈ b, ∃ e, outcomes i = .error e) :
    ∃ e, batchResults outcomes b = .error e ∧
      ∃ i ∈ b, outcomes i = .error e := by
  induction b with
  | nil => simp at h
  | cons i is ih =>
    cases hi : outcomes i with
    | error e =>
      refine ⟨e, ?_, i, List.mem_cons_self i is, hi⟩
      rw [batchResults, hi]
    | ok r =>
      have h' : ∃ j ∈ is, ∃ e, outcomes j = .error e := by
        obtain ⟨j, hj, e, he⟩ := h
        rcases List.mem_cons.mp hj with rfl | hj'
        · rw [hi] at he; cases he
        · exact ⟨j, hj', e, he⟩
      obtain ⟨e, he1, j, hj, he2⟩ := ih h'
      refine ⟨e, ?_, j, List.mem_cons_of_mem _ hj, he2⟩
      rw [batchResults, hi, he1]

/-- On an all-success run the scheduler starts every job and folds every
pushed result. -/
theorem runSched_ok (outcomes : Nat → Except String Stats)
    (bs : List (List Nat))
    (h : ∀ i ∈ bs.join, ∃ r, outcomes i = .ok r) :
    ∀ acc started,
      runSched outcomes bs acc started =
        (.ok (foldStats
          (acc ++ bs.join.map fun i => ((outcomes i).toOption).getD zeroStats)),
         started ++ bs.join) := by
  induction bs with
  | nil => intro acc started; simp [runSched]
  | cons b bs ih =>
    intro acc started
    obtain ⟨rs, hrs, hrs2⟩ := batchResults_ok outcomes b fun i hi =>
      h i (by simp [hi])
    rw [runSched]
    simp only [hrs]
    rw [ih fun i hi => h i (by simp at hi ⊢; right; exact hi)]
    simp [hrs2]

/-- C2: if every job of the batches before some batch fulfills and that
batch contains a failing job, `run` rejects with the error of a failing job
of that batch (no aggregate — not even a partial one — is produced), the
jobs invoked are exactly those of the batches up to and including the
failing batch, and no job of any later batch is ever started. -/
theorem run_fail_fast (outcomes : Nat → Except String Stats)
    (bs1 : List (List Nat)) (b : List Nat) (bs2 : List (List Nat))
    (hok : ∀ i ∈ bs1.join, ∃ r, outcomes i = .ok r)
    (hfail : ∃ i ∈ b, ∃ e, outcomes i = .error e) :
    ∃ e, (∃ i ∈ b, outcomes i = .error e) ∧
      (runSched outcomes (bs1 ++ b :: bs2) [] []).1 = .error e ∧
      (runSched outcomes (bs1 ++ b :: bs2) [] []).2 = bs1.join ++ b ∧
      ∀ j ∈ bs2.join, j ∉ (runSched outcomes (bs1 ++ b :: bs2) [] []).2 ∨
        j ∈ bs1.join ++ b := by
  obtain ⟨e, he1, i, hi, he2⟩ := batchResults_error outcomes b hfail
  suffices hmain : ∀ acc started,
      (runSched outcomes (bs1 ++ b :: bs2) acc started) =
        (.error e, started ++ bs1.join ++ b) by
    refine ⟨e, ⟨i, hi, he2⟩, ?_, ?_, ?_⟩
    · rw [hmain [] []]
    · rw [hmain [] []]; simp
    · intro j hj
      by_cases hmem : j ∈ bs1.join ++ b
      · exact Or.inr hmem
      · left
        rw [hmain [] []]
        simpa using hmem
  clear hfail
  induction bs1 with
  | nil =>
    intro acc started
    simp only [List.nil_append, List.join]
    rw [runSched, he1]
    simp
  | cons b1 bs1 ih =>
    intro acc started
    obtain ⟨rs, hrs, _⟩ := batchResults_ok outcomes b1 fun i hi =>
      hok i (by simp [hi])
    rw [List.cons_append, runSched]
    simp only [hrs]
    rw [ih fun i hi => hok i (by simp at hi ⊢; right; exact hi)]
    simp

/-- Example outcome assignment: every job fulfills. -/
def exOkOutcomes : Nat → Except String Stats := fun i =>
  .ok { bytesSent := .num (100 + i), bytesReceived := .num 10,
        sendTime := .num 5, receiveTime := .num 7 }

/-- Example outcome assignment: job 1 rejects, all other jobs fulfill. -/
def exOutcomes : Nat → Except String Stats := fun i =>
  if i = 1 then .error "connect ECONNREFUSED" else .ok zeroStats

/-- Example outcome assignment: every job rejects. -/
def exFailOutcomes : Nat → Except String Stats := fun _ =>
  .error "socket hang up"

/-- Witness for `run_fail_fast`: batches `[[0], [1], [2]]` where job `1`
fails — the run rejects with job 1's error, jobs `0` and `1` are the only
ones invoked, and batch `[[2]]` is never scheduled. -/
theorem run_fail_fast_witness :
    ∃ e, (∃ i ∈ [1], exOutcomes i = .error e) ∧
      (runSched exOutcomes ([[0]] ++ [1] :: [[2]]) [] []).1 = .error e ∧
      (runSched exOutcomes ([[0]] ++ [1] :: [[2]]) [] []).2 = [[0]].join ++ [1] ∧
      ∀ j ∈ [[2]].join,
        j ∉ (runSched exOutcomes ([[0]] ++ [1] :: [[2]]) [] []).2 ∨
          j ∈ [[0]].join ++ [1] :=
  run_fail_fast exOutcomes [[0]] [1] [[2]]
    (by intro i hi; simp at hi; subst hi; exact ⟨zeroStats, rfl⟩)
    ⟨1, by simp, "connect ECONNREFUSED", rfl⟩

/-- C3: on success of all jobs the aggregate returned by `run` is the fold
of all per-iteration results; that fold equals the elementwise sum of the
four numeric fields; and the fold is order-independent — any permutation of
the results (any completion order) folds to the same aggregate. -/
theorem run_aggregate_elementwise_sum (outcomes : Nat → Except String Stats)
    (bs : List (List Nat)) (results : List Stats)
    (hok : ∀ i ∈ bs.join, ∃ r, outcomes i = .ok r)
    (hres : results =
      bs.join.map fun i => ((outcomes i).toOption).getD zeroStats) :
    (runSched outcomes bs [] []).1 = .ok (foldStats results) ∧
    foldStats results = sumStats results ∧
    ∀ results', results.Perm results' →
      foldStats results' = foldStats results := by
  refine ⟨?_, foldStats_eq_sumStats results,
    fun rs' h => (foldStats_perm h).symm⟩
  rw [runSched_ok outcomes bs hok [] []]
  simp [hres]

/-- Witness for `run_aggregate_elementwise_sum`: three successful jobs in
batches `[[0, 1], [2]]`. -/
theorem run_aggregate_elementwise_sum_witness :
    (runSched exOkOutcomes [[0, 1], [2]] [] []).1 =
      .ok (foldStats
        ([[0, 1], [2]].join.map fun i =>
          ((exOkOutcomes i).toOption).getD zeroStats)) ∧
    foldStats
        ([[0, 1], [2]].join.map fun i =>
          ((exOkOutcomes i).toOption).getD zeroStats) =
      sumStats
        ([[0, 1], [2]].join.map fun i =>
          ((exOkOutcomes i).toOption).getD zeroStats) ∧
    ∀ results',
      (([[0, 1], [2]].join.map fun i =>
        ((exOkOutcomes i).toOption).getD zeroStats)).Perm results' →
      foldStats results' =
        foldStats
          ([[0, 1], [2]].join.map fun i =>
            ((exOkOutcomes i).toOption).getD zeroStats) :=
  run_aggregate_elementwise_sum exOkOutcomes [[0, 1], [2]] _
    (fun i _ => ⟨_, rfl⟩) rfl

/-! ## Network side effects of `run`

When no server address is supplied, `run` creates the null server and
`await`s its `listen` before building the job list; each `playStream` call
opens one connection; `nullServer.close()` sits after the batch loop, so it
runs only when every batch fulfilled — a rejected `await` re-throws out of
`run` before it. -/

/-- Network actions of `run`: null-server start (`listen`), per-session
connection (`net.createConnection`), null-server stop (`close`). -/
inductive IOAct where
  | serverStart
  | openConn (i : Nat)
  | serverStop
  deriving DecidableEq, Repr

/-- `run` over per-job outcomes together with its network side-effect
trace. -/
def runNet (addrGiven : Bool) (outcomes : Nat → Except String Stats)
    (n k : Nat) : Except String Stats × List IOAct :=
  let r := runSched outcomes (splitBatches k (List.range n)) [] []
  let pre : List IOAct := if addrGiven then [] else [.serverStart]
  let post : List IOAct :=
    if addrGiven then []
    else
      match r.1 with
      | .ok _ => [.serverStop]
      | .error _ => []
  (r.1, pre ++ r.2.map IOAct.openConn ++ post)

/-- C6 (amended): with `totalIterations = 0`, `run` returns the zero-valued
aggregate and opens no session connection; when a server address is supplied
no network activity occurs at all, but when none is supplied the null server
is still started and stopped. -/
theorem run_zero_iterations (addrGiven : Bool)
    (outcomes : Nat → Except String Stats) (k : Nat) :
    (runNet addrGiven outcomes 0 k).1 = .ok zeroStats ∧
    (∀ i, IOAct.openConn i ∉ (runNet addrGiven outcomes 0 k).2) ∧
    (addrGiven = true → (runNet addrGiven outcomes 0 k).2 = []) ∧
    (addrGiven = false →
      (runNet addrGiven outcomes 0 k).2 = [.serverStart, .serverStop]) := by
  cases addrGiven <;>
    simp [runNet, List.range_zero, splitBatches_nil, runSched, foldStats]

/-- Counterexample to C6 as stated: with `totalIterations = 0` and no server
address supplied, `run` still performs network I/O — the null server is
started (and stopped), so the side-effect trace is not empty. -/
theorem run_zero_iterations_counterexample :
    (runNet false exOkOutcomes 0 1).2 = [.serverStart, .serverStop] ∧
    (runNet false exOkOutcomes 0 1).2 ≠ [] := by
  constructor <;>
    simp [runNet, List.range_zero, splitBatches_nil, runSched, foldStats]

/-- C8 (amended): when no server address is supplied the null server is
started before anything else (head of the side-effect trace) for every
iteration count including zero; when every job succeeds it is stopped after
everything else (last element of the trace); but when the run fails, `run`
rejects before reaching `nullServer.close()`, so the server is never
stopped. -/
theorem run_null_server_lifecycle (outcomes : Nat → Except String Stats)
    (n k : Nat) :
    (runNet false outcomes n k).2.head? = some .serverStart ∧
    (∀ s, (runNet false outcomes n k).1 = .ok s →
      (runNet false outcomes n k).2.getLast? = some .serverStop) ∧
    (∀ e, (runNet false outcomes n k).1 = .error e →
      IOAct.serverStop ∉ (runNet false outcomes n k).2) := by
  refine ⟨?_, ?_, ?_⟩
  · simp [runNet]
  · intro s hs
    simp only [runNet] at hs ⊢
    rw [hs]
    have hcat : ∀ l : List IOAct,
        (l ++ [IOAct.serverStop]).getLast? = some .serverStop := by
      intro l; simp
    simp only [Bool.false_eq_true, if_false]
    exact hcat _
  · intro e he
    simp only [runNet] at he ⊢
    rw [he]
    simp [List.mem_map]

/-! ## SHA-256 and hex rendering

`playStream` uses `crypto.createHash('sha256')` and `Buffer.toString('hex')`
(both from Node's standard library, outside this source tree) in its debug
branches.  SHA-256 is implemented here in full (FIPS 180-4) over byte
lists; all arithmetic is `Nat` with explicit `% 2^32`. -/

/-- `2^32`, the modulus of 32-bit word arithmetic. -/
def w32 : Nat := 4294967296

/-- Right rotation of a 32-bit word. -/
def rotr32 (n x : Nat) : Nat := ((x >>> n) ||| (x <<< (32 - n))) % w32

/-- Bitwise complement of a 32-bit word. -/
def not32 (x : Nat) : Nat := x ^^^ 0xffffffff

/-- SHA-256 `Ch(e,f,g)`. -/
def shaCh (e f g : Nat) : Nat := (e &&& f) ^^^ (not32 e &&& g)

/-- SHA-256 `Maj(a,b,c)`. -/
def shaMaj (a b c : Nat) : Nat := (a &&& b) ^^^ (a &&& c) ^^^ (b &&& c)

/-- SHA-256 `Σ₀`. -/
def bigSigma0 (x : Nat) : Nat := rotr32 2 x ^^^ rotr32 13 x ^^^ rotr32 22 x

/-- SHA-256 `Σ₁`. -/
def bigSigma1 (x : Nat) : Nat := rotr32 6 x ^^^ rotr32 11 x ^^^ rotr32 25 x

/-- SHA-256 `σ₀`. -/
def smallSigma0 (x : Nat) : Nat := rotr32 7 x ^^^ rotr32 18 x ^^^ (x >>> 3)

/-- SHA-256 `σ₁`. -/
def smallSigma1 (x : Nat) : Nat := rotr32 17 x ^^^ rotr32 19 x ^^^ (x >>> 10)

/-- The 64 SHA-256 round constants (FIPS 180-4, in decimal). -/
def sha256K : List Nat :=
  [1116352408, 1899447441, 3049323471, 3921009573,
   961987163, 1508970993, 2453635748, 2870763221,
   3624381080, 310598401, 607225278, 1426881987,
   1925078388, 2162078206, 2614888103, 3248222580,
   3835390401, 4022224774, 264347078, 604807628,
   770255983, 1249150122, 1555081692, 1996064986,
   2554220882, 2821834349, 2952996808, 3210313671,
   3336571891, 3584528711, 113926993, 338241895,
   666307205, 773529912, 1294757372, 1396182291,
   1695183700, 1986661051, 2177026350, 2456956037,
   2730485921, 2820302411, 3259730800, 3345764771,
   3516065817, 3600352804, 4094571909, 275423344,
   430227734, 506948616, 659060556, 883997877,
   958139571, 1322822218, 1537002063, 1747873779,
   1955562222, 2024104815, 2227730452, 2361852424,
   2428436474, 2756734187, 3204031479, 3329325298]

/-- The SHA-256 initial hash value (FIPS 180-4, in decimal). -/
def sha256H0 : List Nat :=
  [1779033703, 3144134277, 1013904242, 2773480762,
   1359893119, 2600822924, 528734635, 1541459225]

/-- `k` bytes of `n`, big-endian. -/
def beBytes (k n : Nat) : List Nat :=
  (List.range k).map fun i => (n >>> (8 * (k - 1 - i))) % 256

/-- SHA-256 padding: append `0x80`, zero bytes to 56 mod 64, then the
64-bit big-endian bit length. -/
def sha256Pad (msg : List Nat) : List Nat :=
  let z := (56 + 64 - (msg.length + 1) % 64) % 64
  msg ++ [0x80] ++ List.replicate z 0 ++ beBytes 8 (8 * msg.length)

/-- Group bytes into 32-bit big-endian words. -/
def toWords : List Nat → List Nat
  | b0 :: b1 :: b2 :: b3 :: rest =>
    (((b0 * 256 + b1) * 256 + b2) * 256 + b3) :: toWords rest
  | _ => []

/-- Extend a message schedule by `count` further words. -/
def extendSchedule : Nat → List Nat → List Nat
  | 0, w => w
  | c + 1, w =>
    extendSchedule c (w ++
      [(smallSigma1 (w.getD (w.length - 2) 0) + w.getD (w.length - 7) 0 +
        smallSigma0 (w.getD (w.length - 15) 0) + w.getD (w.length - 16) 0)
        % w32])

/-- One SHA-256 round: state `[a,b,c,d,e,f,g,h]`, round input `(wᵢ, kᵢ)`. -/
def sha256Round (st : List Nat) (wk : Nat × Nat) : List Nat :=
  match st with
  | [a, b, c, d, e, f, g, h] =>
    let t1 := (h + bigSigma1 e + shaCh e f g + wk.2 + wk.1) % w32
    let t2 := (bigSigma0 a + shaMaj a b c) % w32
    [(t1 + t2) % w32, a, b, c, (d + t1) % w32, e, f, g]
  | other => other

/-- SHA-256 compression of one 64-byte block into the running hash. -/
def sha256Compress (h : List Nat) (block : List Nat) : List Nat :=
  let w := extendSchedule 48 (toWords block)
  let final := (w.zip sha256K).foldl sha256Round h
  List.zipWith (fun x y => (x + y) % w32) h final

/-- Fuel-driven split into 64-byte blocks (structural, so that the whole
digest is kernel-computable). -/
def chunk64F : Nat → List Nat → List (List Nat)
  | 0, _ => []
  | _, [] => []
  | fuel + 1, l => l.take 64 :: chunk64F fuel (l.drop 64)

/-- Split a byte list into 64-byte blocks. -/
def chunk64 (l : List Nat) : List (List Nat) := chunk64F l.length l

/-- SHA-256 digest (32 bytes) of a byte list. -/
def sha256 (msg : List Nat) : List Nat :=
  (((chunk64 (sha256Pad msg)).foldl sha256Compress sha256H0).map
    (beBytes 4)).join

/-- A lowercase hexadecimal digit. -/
def hexDigit (n : Nat) : Char := "0123456789abcdef".toList.getD n '0'

/-- `Buffer.toString('hex')`: lowercase hexadecimal rendering of a byte
list, two digits per byte. -/
def hexStr (bytes : List Nat) : String :=
  String.mk ((bytes.map fun b => [hexDigit (b / 16 % 16), hexDigit (b % 16)]).join)

/-- The bytes of an ASCII string. -/
def strBytes (s : String) : List Nat := s.toList.map Char.toNat


/-! ## The session player `playStream`

One session wires the file stream through the outbound processors into the
socket and the socket into the `ServerStreamProcessor` (`ssp`), whose
decoded events drive instrumentation, the idle timer, and the optional
debug printing.  The handlers are modelled as a step function over the
events one session observes. -/

/-- `RECEIVE_DATA_TIMEOUT` (line 15): the fixed idle-timeout threshold in
milliseconds. -/
def RECEIVE_DATA_TIMEOUT : Nat := 500

/-- A decoded protocol header as delivered by the `ServerStreamProcessor`:
command, optional blob size, session id bytes, checksum bytes. -/
structure PHeader where
  cmd : String
  size : Option Nat
  guid : List Nat
  hash : List Nat
  deriving DecidableEq, Repr

/-- JS truthiness of `header.size` (`undefined` and `0` are falsy), used by
`if(header.size)`. -/
def sizeTruthy : Option Nat → Bool
  | none => false
  | some s => s != 0

/-- Modelled from the spec: `helpers.GUIDBufferToString` (in `lib/helpers`,
outside this source tree) renders the session id in its canonical string
form; the exact format is external to this core, so it is modelled as a
hexadecimal rendering of the id bytes. -/
def GUIDBufferToString (guid : List Nat) : String := hexStr guid

/-- The header text assembled by the debug branch of the `header` handler:
`debugData = [cmd]`, then `size` when truthy, then
`GUIDBufferToString(guid)` and `hash.toString('hex')`, joined by spaces
after `"<<< "`. -/
def headerDebugText (h : PHeader) : String :=
  "<<< " ++ String.intercalate " "
    ([h.cmd] ++
      (if sizeTruthy h.size then [toString (h.size.getD 0)] else []) ++
      [GUIDBufferToString h.guid, hexStr h.hash])

/-- Events observed by one `playStream` session: file-stream `open`/`close`
(with their `Date.now()` timestamps), decoder events `header`/`data`/
`dataEnd`, the idle-timer callback firing, and the socket `close` event. -/
inductive PEv where
  | fileOpen (t : Int)
  | fileClose (t : Int)
  | header (t : Int) (h : PHeader)
  | dataChunk (chunk : List Nat)
  | dataEnd (t : Int)
  | timerFire
  | sockClose
  deriving DecidableEq, Repr

/-- Debug console output: `process.stdout.write` emits text without a
newline; `console.log` terminates its text with a newline. -/
inductive OutAct where
  | write (s : String)
  | logLine (s : String)
  deriving DecidableEq, Repr

/-- Locally initiated network action of a session: `client.end(payload)` —
flush the payload and close the connection (`payload = ""`: a zero-length
write). -/
inductive NetAct where
  | endConn (payload : String)
  deriving DecidableEq, Repr

/-- Per-session configuration: the `debugProtocol` option and
`fileStats.size`. -/
structure PlayCfg where
  debugProtocol : Bool
  fileSize : Int
  deriving DecidableEq, Repr

/-- The mutable state of one `playStream` session: the idle timer, the
instrumentation variables (`bytesReceived`, the four timestamps), the
running hash input (`dataHash`), the debug output, the locally initiated
network actions, and the resolved result of the returned promise. -/
structure PlayState where
  timerArmed : Bool
  bytesReceived : Int
  sendStartTime : Option Int
  sendEndTime : Option Int
  receiveStartTime : Option Int
  receiveEndTime : Option Int
  hashAcc : List Nat
  out : List OutAct
  net : List NetAct
  result : Option Stats
  deriving DecidableEq, Repr

/-- The session state right after `playStream`'s synchronous setup: all
instrumentation variables unassigned and, by the `setTimer()` call at line
160 — immediately after `net.createConnection` — the idle timer armed. -/
def initPlayState : PlayState :=
  { timerArmed := true, bytesReceived := 0, sendStartTime := none,
    sendEndTime := none, receiveStartTime := none, receiveEndTime := none,
    hashAcc := [], out := [], net := [], result := none }

/-- One event-handler step of `playStream`:
* `fileStream.on('open')` records `sendStartTime`; `.on('close')` records
  `sendEndTime`;
* `ssp.once('header')` records `receiveStartTime` on the first header only;
  the `'header'` handler then (in debug mode) creates a fresh hash and
  prints the header text — via `process.stdout.write` when `header.size` is
  truthy, else via `console.log` — and finally runs `clearTimeout(timer)`;
* `ssp.on('data')` (in debug mode) hashes the chunk and always adds
  `chunk.length` to `bytesReceived`;
* `ssp.on('dataEnd')` (in debug mode) prints the digest via `console.log`,
  records `receiveEndTime`, and rearms the timer with `setTimer()`;
* the timer callback runs `client.end('')`; a cleared timer never fires;
* `client.on('close')` resolves the promise (at most once) with the
  `JobResult`. -/
def step (cfg : PlayCfg) (s : PlayState) : PEv → PlayState
  | .fileOpen t => { s with sendStartTime := some t }
  | .fileClose t => { s with sendEndTime := some t }
  | .header t h =>
    { s with
      receiveStartTime := s.receiveStartTime <|> some t
      hashAcc := if cfg.debugProtocol then [] else s.hashAcc
      out :=
        if cfg.debugProtocol then
          s.out ++
            [if sizeTruthy h.size then OutAct.write (headerDebugText h)
             else OutAct.logLine (headerDebugText h)]
        else s.out
      timerArmed := false }
  | .dataChunk c =>
    { s with
      hashAcc := if cfg.debugProtocol then s.hashAcc ++ c else s.hashAcc
      bytesReceived := s.bytesReceived + c.length }
  | .dataEnd t =>
    { s with
      out :=
        if cfg.debugProtocol then
          s.out ++
            [OutAct.logLine (" <BLOB " ++ hexStr (sha256 s.hashAcc) ++ ">")]
        else s.out
      receiveEndTime := some t
      timerArmed := true }
  | .timerFire =>
    if s.timerArmed then
      { s with timerArmed := false, net := s.net ++ [NetAct.endConn ""] }
    else s
  | .sockClose =>
    if s.result.isSome then s
    else
      { s with
        result := some
          { bytesSent := .num cfg.fileSize
            bytesReceived := .num s.bytesReceived
            sendTime := jsSub s.sendEndTime s.sendStartTime
            receiveTime := jsSub s.receiveEndTime s.receiveStartTime } }

/-- Processing a sequence of session events. -/
def playSteps (cfg : PlayCfg) (evs : List PEv) (s : PlayState) : PlayState :=
  evs.foldl (step cfg) s

theorem playSteps_nil (cfg : PlayCfg) (s : PlayState) :
    playSteps cfg [] s = s := rfl

theorem playSteps_cons (cfg : PlayCfg) (e : PEv) (evs : List PEv)
    (s : PlayState) :
    playSteps cfg (e :: evs) s = playSteps cfg evs (step cfg s e) := rfl

theorem playSteps_append (cfg : PlayCfg) (evs1 evs2 : List PEv)
    (s : PlayState) :
    playSteps cfg (evs1 ++ evs2) s = playSteps cfg evs2 (playSteps cfg evs1 s) := by
  simp [playSteps, List.foldl_append]

/-- `a <|> none = a` for options. -/
theorem orElse_none' (a : Option Int) : (a <|> none) = a := by
  cases a <;> rfl

/-- `none <|> a = a` for options. -/
theorem none_orElse' (a : Option Int) : (none <|> a) = a := rfl

/-- `some t <|> x = some t` for options. -/
theorem some_orElse' (t : Int) (x : Option Int) : (some t <|> x) = some t := rfl

/-- `<|>` is associative on options. -/
theorem orElse_assoc' (a b c : Option Int) :
    ((a <|> b) <|> c) = (a <|> (b <|> c)) := by
  cases a <;> rfl

/-- Overwriting an already-written option absorbs later fallbacks. -/
theorem orElse_some_absorb (a : Option Int) (t : Int) (x : Option Int) :
    ((a <|> some t) <|> x) = (a <|> some t) := by
  cases a <;> rfl

/-- The `fileOpen` timestamp carried by an event, if any. -/
def openTimeOf : PEv → Option Int
  | .fileOpen t => some t
  | _ => none

/-- The `fileClose` timestamp carried by an event, if any. -/
def closeTimeOf : PEv → Option Int
  | .fileClose t => some t
  | _ => none

/-- The `header` timestamp carried by an event, if any. -/
def headerTimeOf : PEv → Option Int
  | .header t _ => some t
  | _ => none

/-- The `dataEnd` timestamp carried by an event, if any. -/
def dataEndTimeOf : PEv → Option Int
  | .dataEnd t => some t
  | _ => none

/-- The timestamp of the last event of the trace selected by `f`
(later events overwrite earlier ones). -/
def lastOf (f : PEv → Option Int) : List PEv → Option Int
  | [] => none
  | e :: evs => lastOf f evs <|> f e

/-- The timestamp of the first event of the trace selected by `f`
(earlier events win, as with `ssp.once`). -/
def firstOf (f : PEv → Option Int) : List PEv → Option Int
  | [] => none
  | e :: evs => f e <|> firstOf f evs

/-- Total byte length of the data chunks of a trace. -/
def chunkBytes : List PEv → Int
  | [] => 0
  | .dataChunk c :: evs => c.length + chunkBytes evs
  | _ :: evs => chunkBytes evs

/-- Whether an event is one decoded by the `ServerStreamProcessor`. -/
def isDecoderEv : PEv → Bool
  | .header _ _ => true
  | .dataChunk _ => true
  | .dataEnd _ => true
  | _ => false

/-- Characterization of the instrumentation state after a session trace
containing no socket `close`: the promise is not resolved, `bytesReceived`
grows by the chunk bytes, `sendStartTime`/`sendEndTime`/`receiveEndTime`
hold the last `open`/`close`/`dataEnd` timestamps (with the previous value
as fallback), and `receiveStartTime` keeps its previous value, else the
first header timestamp (`ssp.once('header')`). -/
theorem playSteps_no_close (cfg : PlayCfg) (evs : List PEv)
    (hnc : PEv.sockClose ∉ evs) :
    ∀ s : PlayState,
      (playSteps cfg evs s).result = s.result ∧
      (playSteps cfg evs s).bytesReceived = s.bytesReceived + chunkBytes evs ∧
      (playSteps cfg evs s).sendStartTime =
        (lastOf openTimeOf evs <|> s.sendStartTime) ∧
      (playSteps cfg evs s).sendEndTime =
        (lastOf closeTimeOf evs <|> s.sendEndTime) ∧
      (playSteps cfg evs s).receiveStartTime =
        (s.receiveStartTime <|> firstOf headerTimeOf evs) ∧
      (playSteps cfg evs s).receiveEndTime =
        (lastOf dataEndTimeOf evs <|> s.receiveEndTime) := by
  induction evs with
  | nil =>
    intro s
    simp [playSteps_nil, lastOf, firstOf, chunkBytes, orElse_none']
  | cons e evs ih =>
    intro s
    have hnc' : PEv.sockClose ∉ evs := fun hc => hnc (List.mem_cons_of_mem _ hc)
    have hne : e ≠ PEv.sockClose := fun hc =>
      hnc (by rw [hc]; exact List.mem_cons_self _ _)
    obtain ⟨ih1, ih2, ih3, ih4, ih5, ih6⟩ := ih hnc' (step cfg s e)
    rw [playSteps_cons]
    cases e with
    | fileOpen t =>
      simp only [step] at ih1 ih2 ih3 ih4 ih5 ih6
      refine ⟨?_, ?_, ?_, ?_, ?_, ?_⟩ <;>
        simp only [step, ih1, ih2, ih3, ih4, ih5, ih6, lastOf, firstOf,
          chunkBytes, openTimeOf, closeTimeOf, headerTimeOf, dataEndTimeOf,
          orElse_none', none_orElse', some_orElse', orElse_some_absorb, orElse_assoc']
    | fileClose t =>
      simp only [step] at ih1 ih2 ih3 ih4 ih5 ih6
      refine ⟨?_, ?_, ?_, ?_, ?_, ?_⟩ <;>
        simp only [step, ih1, ih2, ih3, ih4, ih5, ih6, lastOf, firstOf,
          chunkBytes, openTimeOf, closeTimeOf, headerTimeOf, dataEndTimeOf,
          orElse_none', none_orElse', some_orElse', orElse_some_absorb, orElse_assoc']
    | header t h =>
      simp only [step] at ih1 ih2 ih3 ih4 ih5 ih6
      refine ⟨?_, ?_, ?_, ?_, ?_, ?_⟩ <;>
        simp only [step, ih1, ih2, ih3, ih4, ih5, ih6, lastOf, firstOf,
          chunkBytes, openTimeOf, closeTimeOf, headerTimeOf, dataEndTimeOf,
          orElse_none', none_orElse', some_orElse', orElse_some_absorb, orElse_assoc']
    | dataChunk c =>
      simp only [step] at ih1 ih2 ih3 ih4 ih5 ih6
      refine ⟨?_, ?_, ?_, ?_, ?_, ?_⟩ <;>
        simp only [step, ih1, ih2, ih3, ih4, ih5, ih6, lastOf, firstOf,
          chunkBytes, openTimeOf, closeTimeOf, headerTimeOf, dataEndTimeOf,
          orElse_none', none_orElse', some_orElse', orElse_some_absorb, orElse_assoc'] <;>
        omega
    | dataEnd t =>
      simp only [step] at ih1 ih2 ih3 ih4 ih5 ih6
      refine ⟨?_, ?_, ?_, ?_, ?_, ?_⟩ <;>
        simp only [step, ih1, ih2, ih3, ih4, ih5, ih6, lastOf, firstOf,
          chunkBytes, openTimeOf, closeTimeOf, headerTimeOf, dataEndTimeOf,
          orElse_none', none_orElse', some_orElse', orElse_some_absorb, orElse_assoc']
    | timerFire =>
      cases hb : s.timerArmed <;>
        simp only [step, hb, Bool.false_eq_true, if_true, if_false] at ih1 ih2 ih3 ih4 ih5 ih6 <;>
        refine ⟨?_, ?_, ?_, ?_, ?_, ?_⟩ <;>
          simp only [step, hb, Bool.false_eq_true, if_true, if_false, ih1,
            ih2, ih3, ih4, ih5, ih6, lastOf, firstOf, chunkBytes, openTimeOf,
            closeTimeOf, headerTimeOf, dataEndTimeOf, orElse_none',
            none_orElse', some_orElse', orElse_some_absorb, orElse_assoc']
    | sockClose => exact absurd rfl hne

/-- Once the promise is resolved it never changes: every later event leaves
`result` untouched. -/
theorem playSteps_result_sticky (cfg : PlayCfg) (evs : List PEv) :
    ∀ s : PlayState, s.result.isSome →
      (playSteps cfg evs s).result = s.result := by
  induction evs with
  | nil => intro s _; rfl
  | cons e evs ih =>
    intro s hs
    rw [playSteps_cons]
    have hstep : (step cfg s e).result = s.result := by
      cases e with
      | timerFire => cases hb : s.timerArmed <;> simp [step, hb]
      | sockClose => simp [step, hs]
      | _ => simp [step]
    rw [ih (step cfg s e) (by rw [hstep]; exact hs), hstep]

/-- The promise is resolved only by the socket `close` event. -/
theorem playSteps_result_no_close (cfg : PlayCfg) (evs : List PEv)
    (hnc : PEv.sockClose ∉ evs) :
    ∀ s : PlayState, (playSteps cfg evs s).result = s.result := by
  induction evs with
  | nil => intro s; rfl
  | cons e evs ih =>
    intro s
    have hne : e ≠ PEv.sockClose := fun hc =>
      hnc (by rw [hc]; exact List.mem_cons_self _ _)
    rw [playSteps_cons,
      ih (fun hc => hnc (List.mem_cons_of_mem _ hc)) (step cfg s e)]
    cases e with
    | sockClose => exact absurd rfl hne
    | timerFire => cases hb : s.timerArmed <;> simp [step, hb]
    | _ => simp [step]

/-- Events not decoded by the `ServerStreamProcessor` never rearm a cleared
idle timer and never produce a locally initiated close from a cleared
timer. -/
theorem playSteps_disarmed_stable (cfg : PlayCfg) (evs : List PEv)
    (hnd : ∀ e ∈ evs, isDecoderEv e = false) :
    ∀ s : PlayState, s.timerArmed = false →
      (playSteps cfg evs s).timerArmed = false ∧
      (playSteps cfg evs s).net = s.net := by
  induction evs with
  | nil => intro s hs; exact ⟨hs, rfl⟩
  | cons e evs ih =>
    intro s hs
    have hnd' : ∀ e ∈ evs, isDecoderEv e = false := fun e he =>
      hnd e (List.mem_cons_of_mem _ he)
    have hstep : (step cfg s e).timerArmed = false ∧
        (step cfg s e).net = s.net := by
      cases e with
      | header t h => exact absurd (hnd _ (List.mem_cons_self _ _)) (by simp [isDecoderEv])
      | dataChunk c => exact absurd (hnd _ (List.mem_cons_self _ _)) (by simp [isDecoderEv])
      | dataEnd t => exact absurd (hnd _ (List.mem_cons_self _ _)) (by simp [isDecoderEv])
      | timerFire => simp [step, hs]
      | sockClose => by_cases hr : s.result.isSome <;> simp [step, hr, hs]
      | _ => simp [step, hs]
    rw [playSteps_cons]
    obtain ⟨h1, h2⟩ := ih hnd' (step cfg s e) hstep.1
    exact ⟨h1, h2.trans hstep.2⟩

/-- C4: the per-session idle-timeout state machine.  The threshold is the
fixed 500 ms `RECEIVE_DATA_TIMEOUT`; the timer is armed right after
connecting (the `setTimer()` ending `playStream`'s setup); a decoded header
clears the pending timer; every `dataEnd` rearms it; an armed timer firing
emits `client.end('')` — the zero-length write that closes the connection —
while a cleared timer firing does nothing; and the timer callback is the
sole source of locally initiated session termination: no other event ever
appends a network action. -/
theorem idle_timer_state_machine (cfg : PlayCfg) (s : PlayState) (t : Int)
    (h : PHeader) (e : PEv) :
    RECEIVE_DATA_TIMEOUT = 500 ∧
    initPlayState.timerArmed = true ∧
    (step cfg s (.header t h)).timerArmed = false ∧
    (step cfg s (.dataEnd t)).timerArmed = true ∧
    (s.timerArmed = true →
      (step cfg s .timerFire).net = s.net ++ [NetAct.endConn ""]) ∧
    (s.timerArmed = false → step cfg s .timerFire = s) ∧
    ((step cfg s e).net ≠ s.net → e = .timerFire ∧ s.timerArmed = true) := by
  refine ⟨rfl, rfl, by simp [step], by simp [step], ?_, ?_, ?_⟩
  · intro hb; simp [step, hb]
  · intro hb; simp [step, hb]
  · intro hne
    cases e with
    | timerFire =>
      cases hb : s.timerArmed
      · rw [step] at hne; simp [hb] at hne
      · exact ⟨rfl, rfl⟩
    | sockClose =>
      exfalso; apply hne
      by_cases hr : s.result.isSome <;> simp [step, hr]
    | _ => exact absurd rfl hne

/-- Witness for `idle_timer_state_machine` at a concrete state and event. -/
theorem idle_timer_state_machine_witness :
    RECEIVE_DATA_TIMEOUT = 500 ∧
    initPlayState.timerArmed = true ∧
    (step { debugProtocol := false, fileSize := 10 } initPlayState
      (.header 3 { cmd := "+a", size := none, guid := [], hash := [] })).timerArmed = false ∧
    (step { debugProtocol := false, fileSize := 10 } initPlayState
      (.dataEnd 3)).timerArmed = true ∧
    (initPlayState.timerArmed = true →
      (step { debugProtocol := false, fileSize := 10 } initPlayState
        .timerFire).net = initPlayState.net ++ [NetAct.endConn ""]) ∧
    (initPlayState.timerArmed = false →
      step { debugProtocol := false, fileSize := 10 } initPlayState
        .timerFire = initPlayState) ∧
    ((step { debugProtocol := false, fileSize := 10 } initPlayState
      .timerFire).net ≠ initPlayState.net →
      PEv.timerFire = PEv.timerFire ∧ initPlayState.timerArmed = true) :=
  idle_timer_state_machine { debugProtocol := false, fileSize := 10 }
    initPlayState 3 { cmd := "+a", size := none, guid := [], hash := [] }
    .timerFire

/-- C10: if the last decoded event of a session is a header carrying no
blob (so that no `dataEnd` follows), the `clearTimeout` in the header
handler cancels the idle timer for good: after that header the timer is
disarmed, and over any continuation containing no further decoder events no
locally initiated close (`client.end`) ever occurs and the session's
promise resolves only if a socket `close` event — necessarily initiated by
the remote peer, since the local close path is never taken — arrives. -/
theorem header_without_blob_never_times_out (cfg : PlayCfg)
    (pre : List PEv) (t : Int) (h : PHeader) (cont : List PEv)
    (hcont : ∀ e ∈ cont, isDecoderEv e = false) :
    (playSteps cfg (pre ++ [.header t h]) initPlayState).timerArmed = false ∧
    (playSteps cfg cont
        (playSteps cfg (pre ++ [.header t h]) initPlayState)).net =
      (playSteps cfg (pre ++ [.header t h]) initPlayState).net ∧
    ((playSteps cfg cont
        (playSteps cfg (pre ++ [.header t h]) initPlayState)).result ≠
      (playSteps cfg (pre ++ [.header t h]) initPlayState).result →
      PEv.sockClose ∈ cont) := by
  have harm : (playSteps cfg (pre ++ [.header t h]) initPlayState).timerArmed
      = false := by
    rw [playSteps_append]
    simp [playSteps, step]
  refine ⟨harm, (playSteps_disarmed_stable cfg cont hcont _ harm).2, ?_⟩
  intro hres
  by_contra hc
  exact hres (playSteps_result_no_close cfg cont hc _)

/-- Witness for `header_without_blob_never_times_out`: a session whose only
decoded event is a sizeless header, followed by a timer-free wait and the
remote close. -/
theorem header_without_blob_never_times_out_witness :
    (playSteps { debugProtocol := false, fileSize := 4 }
      ([.fileOpen 1, .fileClose 2] ++
        [.header 5 { cmd := "+a", size := none, guid := [], hash := [] }])
      initPlayState).timerArmed = false ∧
    (playSteps { debugProtocol := false, fileSize := 4 }
        [.timerFire, .sockClose]
        (playSteps { debugProtocol := false, fileSize := 4 }
          ([.fileOpen 1, .fileClose 2] ++
            [.header 5 { cmd := "+a", size := none, guid := [], hash := [] }])
          initPlayState)).net =
      (playSteps { debugProtocol := false, fileSize := 4 }
        ([.fileOpen 1, .fileClose 2] ++
          [.header 5 { cmd := "+a", size := none, guid := [], hash := [] }])
        initPlayState).net ∧
    ((playSteps { debugProtocol := false, fileSize := 4 }
        [.timerFire, .sockClose]
        (playSteps { debugProtocol := false, fileSize := 4 }
          ([.fileOpen 1, .fileClose 2] ++
            [.header 5 { cmd := "+a", size := none, guid := [], hash := [] }])
          initPlayState)).result ≠
      (playSteps { debugProtocol := false, fileSize := 4 }
        ([.fileOpen 1, .fileClose 2] ++
          [.header 5 { cmd := "+a", size := none, guid := [], hash := [] }])
        initPlayState).result →
      PEv.sockClose ∈ [PEv.timerFire, PEv.sockClose]) :=
  header_without_blob_never_times_out { debugProtocol := false, fileSize := 4 }
    [.fileOpen 1, .fileClose 2] 5 { cmd := "+a", size := none, guid := [], hash := [] }
    [.timerFire, .sockClose] (by decide)

/-- C5: on closure of the connection — after any session trace without an
earlier `close`, followed by the socket `close` event (whether that close
was initiated locally by the idle timeout or by the remote peer) — the
promise resolves exactly one JobResult: `bytesSent` is the total source
size, `bytesReceived` the sum of the byte lengths of the received data
chunks, `sendTime` the span from the file stream's `open` (source starts
producing) to its `close` (source exhausted), and `receiveTime` the span
from the first header to the last `dataEnd` before closure; and any further
events (even further `close` events) leave the resolved result unchanged. -/
theorem play_close_resolves (cfg : PlayCfg) (evs : List PEv)
    (hnc : PEv.sockClose ∉ evs) (t1 t2 h1 d1 : Int)
    (hopen : lastOf openTimeOf evs = some t1)
    (hclose : lastOf closeTimeOf evs = some t2)
    (hhead : firstOf headerTimeOf evs = some h1)
    (hde : lastOf dataEndTimeOf evs = some d1) :
    (playSteps cfg (evs ++ [.sockClose]) initPlayState).result =
      some { bytesSent := .num cfg.fileSize
             bytesReceived := .num (chunkBytes evs)
             sendTime := .num (t2 - t1)
             receiveTime := .num (d1 - h1) } ∧
    ∀ more : List PEv,
      (playSteps cfg more
          (playSteps cfg (evs ++ [.sockClose]) initPlayState)).result =
        (playSteps cfg (evs ++ [.sockClose]) initPlayState).result := by
  obtain ⟨c1, c2, c3, c4, c5, c6⟩ := playSteps_no_close cfg evs hnc initPlayState
  have hres : (playSteps cfg (evs ++ [.sockClose]) initPlayState).result =
      some { bytesSent := .num cfg.fileSize
             bytesReceived := .num (chunkBytes evs)
             sendTime := .num (t2 - t1)
             receiveTime := .num (d1 - h1) } := by
    rw [playSteps_append]
    have hstep : playSteps cfg [PEv.sockClose]
        (playSteps cfg evs initPlayState) =
        step cfg (playSteps cfg evs initPlayState) PEv.sockClose := rfl
    rw [hstep]
    simp only [step]
    rw [c1, c2, c3, c4, c5, c6]
    simp only [initPlayState, Option.isSome_none, Bool.false_eq_true,
      if_false, orElse_none', none_orElse', hopen, hclose, hhead, hde, jsSub]
    simp
  refine ⟨hres, fun more => playSteps_result_sticky cfg more _ ?_⟩
  rw [hres]
  rfl

/-- Witness for `play_close_resolves`: a source of 5 bytes sent between
times 10 and 15, one header at 20, one 5-byte chunk, `dataEnd` at 30, then
closure. -/
theorem play_close_resolves_witness :
    (playSteps { debugProtocol := false, fileSize := 5 }
      ([.fileOpen 10, .fileClose 15,
        .header 20 { cmd := "+a", size := some 5, guid := [], hash := [] },
        .dataChunk (strBytes "hello"), .dataEnd 30] ++ [.sockClose])
      initPlayState).result =
      some { bytesSent := .num 5
             bytesReceived := .num (chunkBytes
               [.fileOpen 10, .fileClose 15,
                .header 20 { cmd := "+a", size := some 5, guid := [], hash := [] },
                .dataChunk (strBytes "hello"), .dataEnd 30])
             sendTime := .num (15 - 10)
             receiveTime := .num (30 - 20) } ∧
    ∀ more : List PEv,
      (playSteps { debugProtocol := false, fileSize := 5 } more
          (playSteps { debugProtocol := false, fileSize := 5 }
            ([.fileOpen 10, .fileClose 15,
              .header 20 { cmd := "+a", size := some 5, guid := [], hash := [] },
              .dataChunk (strBytes "hello"), .dataEnd 30] ++ [.sockClose])
            initPlayState)).result =
        (playSteps { debugProtocol := false, fileSize := 5 }
          ([.fileOpen 10, .fileClose 15,
            .header 20 { cmd := "+a", size := some 5, guid := [], hash := [] },
            .dataChunk (strBytes "hello"), .dataEnd 30] ++ [.sockClose])
          initPlayState).result :=
  play_close_resolves { debugProtocol := false, fileSize := 5 }
    [.fileOpen 10, .fileClose 15,
     .header 20 { cmd := "+a", size := some 5, guid := [], hash := [] },
     .dataChunk (strBytes "hello"), .dataEnd 30]
    (by decide) 10 15 20 30 (by decide) (by decide) (by decide) (by decide)

/-- A trace with no decoder events has no header timestamp, no `dataEnd`
timestamp and no chunk bytes. -/
theorem no_decoder_observations (evs : List PEv)
    (hnd : ∀ e ∈ evs, isDecoderEv e = false) :
    firstOf headerTimeOf evs = none ∧ lastOf dataEndTimeOf evs = none ∧
      chunkBytes evs = 0 := by
  induction evs with
  | nil => exact ⟨rfl, rfl, rfl⟩
  | cons e evs ih =>
    obtain ⟨i1, i2, i3⟩ := ih fun e he => hnd e (List.mem_cons_of_mem _ he)
    have he : isDecoderEv e = false := hnd e (List.mem_cons_self _ _)
    cases e <;> simp [isDecoderEv] at he ⊢ <;>
      simp [firstOf, lastOf, chunkBytes, headerTimeOf, dataEndTimeOf,
        i1, i2, i3, orElse_none', none_orElse']

/-- C9: a session during which the decoder emits no events at all — e.g.
replaying against the null server, which sends nothing back — resolves, on
close, a JobResult with `bytesReceived = 0` whose `receiveTime` is the JS
difference of the two never-assigned timestamps, i.e. `NaN`, not `0`; and
this non-numeric value propagates through `run`'s fold: any result list
containing such a record folds to an aggregate whose `receiveTime` is
`NaN`. -/
theorem no_header_receive_time_nan (cfg : PlayCfg) (evs : List PEv)
    (hnd : ∀ e ∈ evs, isDecoderEv e = false) (hnc : PEv.sockClose ∉ evs) :
    ∃ r : Stats,
      (playSteps cfg (evs ++ [.sockClose]) initPlayState).result = some r ∧
      r.bytesReceived = .num 0 ∧
      r.receiveTime = .nan ∧
      r.receiveTime ≠ .num 0 ∧
      ∀ pre post : List Stats,
        (foldStats (pre ++ r :: post)).receiveTime = .nan := by
  obtain ⟨c1, c2, c3, c4, c5, c6⟩ := playSteps_no_close cfg evs hnc initPlayState
  obtain ⟨n1, n2, n3⟩ := no_decoder_observations evs hnd
  refine ⟨{ bytesSent := .num cfg.fileSize
            bytesReceived := .num 0
            sendTime := jsSub (lastOf closeTimeOf evs) (lastOf openTimeOf evs)
            receiveTime := .nan }, ?_, rfl, rfl, by simp, ?_⟩
  · rw [playSteps_append]
    have hstep : playSteps cfg [PEv.sockClose]
        (playSteps cfg evs initPlayState) =
        step cfg (playSteps cfg evs initPlayState) PEv.sockClose := rfl
    rw [hstep]
    simp only [step]
    rw [c1, c2, c3, c4, c5, c6]
    simp only [initPlayState, Option.isSome_none, Bool.false_eq_true,
      if_false, orElse_none', none_orElse', n1, n2, n3, jsSub]
    simp
  · intro pre post
    rw [foldStats_eq_sumStats]
    simp [sumStats, JSNum.add_nan, JSNum.nan_add]

/-- Witness for `no_header_receive_time_nan`: a session against a silent
peer — file opened and closed, the idle timer fires, the socket closes. -/
theorem no_header_receive_time_nan_witness :
    ∃ r : Stats,
      (playSteps { debugProtocol := false, fileSize := 4 }
        ([.fileOpen 1, .fileClose 2, .timerFire] ++ [.sockClose])
        initPlayState).result = some r ∧
      r.bytesReceived = .num 0 ∧
      r.receiveTime = .nan ∧
      r.receiveTime ≠ .num 0 ∧
      ∀ pre post : List Stats,
        (foldStats (pre ++ r :: post)).receiveTime = .nan :=
  no_header_receive_time_nan { debugProtocol := false, fileSize := 4 }
    [.fileOpen 1, .fileClose 2, .timerFire] (by decide) (by decide)

/-! ## Debug rendering scenario -/

/-- Example 16-byte session id `[0x00 … 0x0f]`. -/
def exGuid : List Nat := [0, 1, 2, 3, 4, 5, 6, 7, 8, 9, 10, 11, 12, 13, 14, 15]

/-- Example 16-byte checksum (`deadbeef` repeated four times). -/
def exHash : List Nat :=
  [222, 173, 190, 239, 222, 173, 190, 239,
   222, 173, 190, 239, 222, 173, 190, 239]

/-- Example header of an inbound frame declaring a 10-byte blob. -/
def exHeader : PHeader :=
  { cmd := "+a", size := some 10, guid := exGuid, hash := exHash }

/-- Session configuration with `debugProtocol` enabled. -/
def debugCfg : PlayCfg := { debugProtocol := true, fileSize := 10 }

/-- The decoder events of a single inbound frame carrying the 10-byte blob
`"helloworld"`, delivered in two chunks. -/
def helloworldTrace : List PEv :=
  [.header 1000 exHeader, .dataChunk (strBytes "hello"),
   .dataChunk (strBytes "world"), .dataEnd 1001]

/-- Rendering of debug output to the console character stream:
`process.stdout.write` emits its text as is, `console.log` appends a
newline. -/
def renderOut (acts : List OutAct) : List Char :=
  (acts.map fun a =>
    match a with
    | .write s => s.toList
    | .logLine s => s.toList ++ ['\n']).join

set_option maxRecDepth 4000 in
/-- C7 (amended): in debug mode the header handler prints — before any blob
data arrives — the command, the size when truthy, the session id in its
canonical string form and the checksum in lowercase hex, and every received
blob byte is hashed incrementally so that `dataEnd` prints the lowercase
SHA-256 hex digest of the whole blob; but for a frame carrying a blob the
header text is emitted by `process.stdout.write` with no trailing newline
and the digest is appended by `console.log` to the same console line: the
`"helloworld"` scenario produces one single line consisting of the header
fields followed by `" <BLOB <digest>>"`, with the digest equal to the
SHA-256 hex digest of `"helloworld"`. -/
theorem debug_blob_one_line :
    (playSteps debugCfg helloworldTrace initPlayState).out =
      [OutAct.write (headerDebugText exHeader),
       OutAct.logLine
         (" <BLOB " ++ hexStr (sha256 (strBytes "helloworld")) ++ ">")] ∧
    headerDebugText exHeader =
      "<<< +a 10 000102030405060708090a0b0c0d0e0f deadbeefdeadbeefdeadbeefdeadbeef" ∧
    hexStr (sha256 (strBytes "helloworld")) =
      "936a185caaa266bb9cbe981e9e05cb78cd732b0b3280eb944412bb6f8f8f07af" ∧
    renderOut (playSteps debugCfg helloworldTrace initPlayState).out =
      ("<<< +a 10 000102030405060708090a0b0c0d0e0f deadbeefdeadbeefdeadbeefdeadbeef" ++
        " <BLOB 936a185caaa266bb9cbe981e9e05cb78cd732b0b3280eb944412bb6f8f8f07af>\n").toList := by
  refine ⟨by decide, by decide, by decide, by decide⟩

set_option maxRecDepth 4000 in
/-- Counterexample to C7 as stated: the scenario's debug output forms one
single console line, not a header line followed by a separate digest line —
its rendering contains exactly one newline character where two separately
printed lines would contain two. -/
theorem debug_blob_not_two_lines :
    (renderOut
      (playSteps debugCfg helloworldTrace initPlayState).out).count '\n' = 1 ∧
    (renderOut
      (playSteps debugCfg helloworldTrace initPlayState).out).count '\n' ≠ 2 := by
  refine ⟨by decide, by decide⟩

/-- Witness for `run_zero_iterations` with a supplied server address. -/
theorem run_zero_iterations_witness :
    (runNet true exOkOutcomes 0 1).1 = .ok zeroStats ∧
    (∀ i, IOAct.openConn i ∉ (runNet true exOkOutcomes 0 1).2) ∧
    (true = true → (runNet true exOkOutcomes 0 1).2 = []) ∧
    (true = false →
      (runNet true exOkOutcomes 0 1).2 = [.serverStart, .serverStop]) :=
  run_zero_iterations true exOkOutcomes 1

/-- Counterexample to C8 as stated: a run that ends in failure (no server
address, one iteration whose job rejects) never stops the null server — the
side-effect trace is `[serverStart, openConn 0]`, with no `serverStop`. -/
theorem run_null_server_failure_counterexample :
    (runNet false exFailOutcomes 1 1).1 = .error "socket hang up" ∧
    (runNet false exFailOutcomes 1 1).2 = [.serverStart, .openConn 0] ∧
    IOAct.serverStop ∉ (runNet false exFailOutcomes 1 1).2 := by
  have h1 : splitBatches 1 (List.range 1) = [[0]] := by
    have : List.range 1 = [0] := rfl
    rw [this, splitBatches_cons]
    simp [splitBatches_nil]
  refine ⟨?_, ?_, ?_⟩ <;>
    simp [runNet, h1, runSched, batchResults, exFailOutcomes]

/-- Witness for `run_null_server_lifecycle`: two successful iterations with
no server address. -/
theorem run_null_server_lifecycle_witness :
    (runNet false exOkOutcomes 2 1).2.head? = some .serverStart ∧
    (∀ s, (runNet false exOkOutcomes 2 1).1 = .ok s →
      (runNet false exOkOutcomes 2 1).2.getLast? = some .serverStop) ∧
    (∀ e, (runNet false exOkOutcomes 2 1).1 = .error e →
      IOAct.serverStop ∉ (runNet false exOkOutcomes 2 1).2) :=
  run_null_server_lifecycle exOkOutcomes 2 1
